import Mathlib

/-!
Shallow embedding of the bids2table write path, translated from the Python
sources: bids2table/table.py, crawler.py, logging.py, utils.py, writer.py,
schema.py and handlers/handler.py.  Python dicts are modelled as association
lists with unique keys (insertion order preserved, as in Python 3.7+),
exceptions as an explicit error monad, floats as rationals, and the file
system as an explicit finite map passed around as state.
-/

namespace B2T

/-- Dynamically typed Python scalar value as it appears in records and keys.
The `obj` constructor stands for any value that is neither `int` nor `str`
(floats, lists, arbitrary objects, ...). -/
inductive PyVal where
  | int (n : Int)
  | str (s : String)
  | rat (q : Rat)
  | obj (tag : String)
  deriving DecidableEq, Repr

/-- Python exceptions, distinguished by exception class. -/
inductive PyErr where
  | valueError (msg : String)
  | typeError (msg : String)
  | keyError (msg : String)
  | attributeError (msg : String)
  | runtimeError (msg : String)
  deriving DecidableEq, Repr

/-- Python `d.get(k)`: first (unique) binding of `k` in the dict `d`. -/
def dictGet {κ α : Type} [DecidableEq κ] (d : List (κ × α)) (k : κ) : Option α :=
  match d with
  | [] => none
  | (k1, v) :: rest => if k1 = k then some v else dictGet rest k

/-- Python `d[k] = v`: update the binding in place if present (keeping its
position, as Python dicts do), otherwise append it. -/
def dictSet {κ α : Type} [DecidableEq κ] (d : List (κ × α)) (k : κ) (v : α) :
    List (κ × α) :=
  match d with
  | [] => [(k, v)]
  | (k1, v1) :: rest => if k1 = k then (k, v) :: rest else (k1, v1) :: dictSet rest k v

/-- Split a character list on the separator `/`. -/
def splitSlash : List Char → List (List Char)
  | [] => [[]]
  | '/' :: rest => [] :: splitSlash rest
  | c :: rest =>
    match splitSlash rest with
    | [] => [[c]]
    | p :: ps => (c :: p) :: ps

/-- The path components of a posix path string (empty components dropped, as
`pathlib` normalization does). -/
def pathComponents (p : String) : List String :=
  ((splitSlash p.data).filter (fun c => ¬ c.isEmpty)).map String.mk

/-- Join path components with the separator. -/
def joinComponents : List String → String
  | [] => ""
  | [c] => c
  | c :: rest => c ++ "/" ++ joinComponents rest

/-- Prefix test on strings (Python `str.startswith`). -/
def isPrefixC : List Char → List Char → Bool
  | [], _ => true
  | _ :: _, [] => false
  | a :: as_, b :: bs => a = b && isPrefixC as_ bs

def strStartsWith (s pre : String) : Bool := isPrefixC pre.data s.data

/-- Python string comparison: lexicographic on code points. -/
def clLe : List Char → List Char → Bool
  | [], _ => true
  | _ :: _, [] => false
  | a :: as_, b :: bs => if a = b then clLe as_ bs else decide (a.val.toNat < b.val.toNat)

def strLe (a b : String) : Bool := clLe a.data b.data

/-- `isinstance(v, (int, str))` from `Table._check_key`. -/
def isIntOrStr : PyVal → Bool
  | .int _ => true
  | .str _ => true
  | _ => false

/-- A table key as passed to `Table.put`: either a bare scalar or a tuple. -/
inductive PyKey where
  | scalar (v : PyVal)
  | tup (vs : List PyVal)
  deriving DecidableEq, Repr

/-! ### bids2table/table.py: class Table -/

/-- State of a `Table` (table.py).  `column_groups` maps each declared group
label to the ordered column list of its schema, `table` is the
`Dict[str, Dict[Key, List[Any]]]` accumulator (a defaultdict: groups appear
once first written to). -/
structure Table where
  column_groups : List (String × List String)
  index_names : List String
  constants : Option (List (String × PyVal))
  table : List (String × List (PyKey × List (Option PyVal)))
  deriving DecidableEq, Repr

/-- `Table._check_key` (table.py lines 46-66): tuple keys must match the
index arity; bare keys are allowed only with a single index column and are
wrapped; every element must be `int` or `str`; finally a length-1 key is
unwrapped back to its scalar element. -/
def Table.check_key (index_names : List String) (key : PyKey) :
    Except PyErr PyKey :=
  match key with
  | .tup vs =>
    if vs.length ≠ index_names.length then
      .error (.valueError "Invalid key; expected same length as index_names")
    else if vs.all isIntOrStr then
      if index_names.length = 1 then .ok (.scalar (vs.headD (.int 0)))
      else .ok (.tup vs)
    else .error (.typeError "Invalid key; expected only str and int")
  | .scalar v =>
    if index_names.length ≠ 1 then
      .error (.valueError "Invalid key; a tuple is required unless there is a single index column")
    else if isIntOrStr v then .ok (.scalar v)
    else .error (.typeError "Invalid key; expected only str and int")

/-- `Table.put` (table.py lines 37-44): check the key, look the group schema
up (`self.column_groups[column_group]`, a `KeyError` if undeclared), build the
row as `[record.get(col) for col in schema.columns()]` and store it at the
normalized key. -/
def Table.put (t : Table) (key : PyKey) (column_group : String)
    (record : List (String × PyVal)) : Except PyErr Table :=
  match Table.check_key t.index_names key with
  | .error e => .error e
  | .ok nk =>
    match dictGet t.column_groups column_group with
    | none => .error (.keyError column_group)
    | some cols =>
      let row := cols.map (fun c => dictGet record c)
      let group := (dictGet t.table column_group).getD []
      .ok { t with table := dictSet t.table column_group (dictSet group nk row) }

/-! ### Table.to_pandas (table.py lines 68-98)

`to_pandas` builds one frame per column group (rows in dict insertion order),
outer-concatenates them on the key axis (`pd.concat(..., axis=1, sort=True)`:
per the pandas contract the non-concatenation axis is sorted only if the input
indexes are not already aligned; identical indexes are kept as they are),
resets the key index into an `"_index"` column group, and finally iterates
over `self.constants.keys()`.  That last loop evaluates
`self.constants.keys()` even when `constants` is `None` (an
`AttributeError`), and for each constant column evaluates `df.loc[col]` -- a
row lookup by string label on the integer range index, a `KeyError`.  Dtype
casts (`astype`, `convert_dtypes`) act on cell contents only and are modelled
as the identity. -/

/-- Modelled total order used for sorting keys; faithful on homogeneous
`int` keys and on homogeneous `str` keys (mixed-type Python keys would not be
orderable at all). -/
def PyVal.le : PyVal → PyVal → Bool
  | .int a, .int b => a ≤ b
  | .int _, _ => true
  | .str _, .int _ => false
  | .str a, .str b => strLe a b
  | .str _, _ => true
  | .rat _, .int _ => false
  | .rat _, .str _ => false
  | .rat a, .rat b => a ≤ b
  | .rat _, .obj _ => true
  | .obj _, .obj _ => true
  | .obj _, _ => false

/-- Lexicographic comparison of equal-length scalar lists. -/
def pyListLe : List PyVal → List PyVal → Bool
  | [], _ => true
  | _ :: _, [] => false
  | a :: as_, b :: bs => if a = b then pyListLe as_ bs else PyVal.le a b

def PyKey.le : PyKey → PyKey → Bool
  | .scalar a, .scalar b => PyVal.le a b
  | .scalar a, .tup bs => pyListLe [a] bs
  | .tup as_, .scalar b => pyListLe as_ [b]
  | .tup as_, .tup bs => pyListLe as_ bs

/-- First-occurrence deduplication (an index union keeps one copy per key). -/
def dedupKeys : List PyKey → List PyKey
  | [] => []
  | k :: rest => if k ∈ rest then dedupKeys rest else k :: dedupKeys rest

/-- The row labels of one column group's frame, in dict insertion order. -/
def Table.groupKeys (t : Table) (g : String) : List PyKey :=
  ((dictGet t.table g).getD []).map (fun e => e.1)

/-- The combined row index produced by `pd.concat(..., axis=1, sort=True)`:
kept as-is when all group indexes are already aligned, otherwise the sorted,
deduplicated union. -/
def Table.combinedIndex (t : Table) : List PyKey :=
  let ls := t.column_groups.map (fun gc => t.groupKeys gc.1)
  match ls with
  | [] => []
  | l :: rest =>
    if rest.all (fun m => m = l) then l
    else List.insertionSort (fun a b => PyKey.le a b = true) (dedupKeys (l :: rest).flatten)

/-- Index cells contributed by `reset_index` for one key. -/
def PyKey.cells : PyKey → List (Option PyVal)
  | .scalar v => [some v]
  | .tup vs => vs.map some

/-- The columnar result of `to_pandas`: two-level column labels with the cell
matrix, one row per key of the combined index. -/
structure DataFrame where
  columns : List (String × String)
  rows : List (List (Option PyVal))
  deriving DecidableEq, Repr

/-- `Table.to_pandas` (table.py lines 68-98).  See the section comment: the
frame construction succeeds, then the constants loop raises unless
`constants` is exactly the empty dict. -/
def Table.to_pandas (t : Table) : Except PyErr DataFrame :=
  let index := t.combinedIndex
  let dataCols : List (String × String) :=
    (t.column_groups.map (fun gc => gc.2.map (fun c => (gc.1, c)))).flatten
  let groupRow : String × List String → PyKey → List (Option PyVal) :=
    fun gc k =>
      match dictGet ((dictGet t.table gc.1).getD []) k with
      | some row => row
      | none => gc.2.map (fun _ => none)
  let indexCols : List (String × String) := t.index_names.map (fun n => ("_index", n))
  let df : DataFrame :=
    { columns := indexCols ++ dataCols
      rows := index.map (fun k =>
        k.cells ++ (t.column_groups.map (fun gc => groupRow gc k)).flatten) }
  match t.constants with
  | none => .error (.attributeError "NoneType object has no attribute keys")
  | some [] => .ok df
  | some (_ :: _) =>
    .error (.keyError "constant column label is not in the row index")

/-! ### bids2table/crawler.py -/

/-- `HandlingFailure` (crawler.py lines 18-26). -/
structure HandlingFailure where
  path : String
  pattern : String
  handler : String
  exception : String
  deriving DecidableEq, Repr

/-- `CrawlCounts` (crawler.py lines 29-48). -/
structure CrawlCounts where
  total : Nat
  process : Nat
  error : Nat
  deriving DecidableEq, Repr

/-- Outcome of calling a Python callable that returns an optional value:
it raises, returns `None`, or returns a value. -/
inductive PyCallOutcome (α : Type) where
  | raises (msg : String)
  | retNone
  | ret (v : α)
  deriving DecidableEq, Repr

/-- One matched (path, handler) task, with the behaviour of the indexer call
and of the handler call on that path given as data. -/
structure CrawlTask where
  path : String
  pattern : String
  indexerName : String
  handlerName : String
  label : String
  indexerCall : PyCallOutcome (List (String × PyVal))
  handlerCall : PyCallOutcome (List (String × PyVal))
  deriving DecidableEq, Repr

/-- `Crawler._process_one` (crawler.py lines 182-225): the indexer call is
guarded by try/except (a failure is recorded and the path skipped); when a key
was produced the handler call is guarded the same way.  Returns the optional
`(key, record)` pair and the optional failure. -/
def Crawler.process_one (t : CrawlTask) :
    Option (List (String × PyVal) × List (String × PyVal)) × Option HandlingFailure :=
  match t.indexerCall with
  | .raises e => (none, some ⟨t.path, t.pattern, t.indexerName, e⟩)
  | .retNone => (none, none)
  | .ret key =>
    match t.handlerCall with
    | .raises e => (none, some ⟨t.path, t.pattern, t.handlerName, e⟩)
    | .retNone => (none, none)
    | .ret record => (some (key, record), none)

/-- Accumulator of the `crawl` aggregation loop (crawler.py lines 107-128):
counts, the failure list, and the successful puts in arrival order. -/
structure CrawlAcc where
  counts : CrawlCounts
  errors : List HandlingFailure
  puts : List (String × (List (String × PyVal) × List (String × PyVal)))
  deriving DecidableEq, Repr

/-- One iteration of the `crawl` loop (crawler.py lines 113-128): bump
`counts.total`, record a successful put, and on a failure append it, bump
`counts.error`, and raise iff `self.max_failures` is truthy (set and nonzero)
and `len(errors) >= self.max_failures`. -/
def Crawler.crawl_step (max_failures : Option Nat) (acc : CrawlAcc)
    (t : CrawlTask) : Except PyErr CrawlAcc :=
  let (data, err) := Crawler.process_one t
  let acc := { acc with counts := { acc.counts with total := acc.counts.total + 1 } }
  let acc :=
    match data with
    | some kr =>
      { acc with puts := acc.puts ++ [(t.label, kr)],
                 counts := { acc.counts with process := acc.counts.process + 1 } }
    | none => acc
  match err with
  | none => .ok acc
  | some e =>
    let acc := { acc with errors := acc.errors ++ [e],
                          counts := { acc.counts with error := acc.counts.error + 1 } }
    match max_failures with
    | none => .ok acc
    | some m =>
      if m ≠ 0 ∧ m ≤ acc.errors.length then
        .error (.runtimeError "Max number of failures exceeded")
      else .ok acc

/-- The aggregation loop of `Crawler.crawl`: run the iterations in stream
order, propagating a raised error. -/
def Crawler.crawl_loop (max_failures : Option Nat) (acc : CrawlAcc) :
    List CrawlTask → Except PyErr CrawlAcc
  | [] => .ok acc
  | t :: rest =>
    match Crawler.crawl_step max_failures acc t with
    | .error e => .error e
    | .ok acc2 => Crawler.crawl_loop max_failures acc2 rest

/-- `Crawler.crawl` (crawler.py lines 113-131) over the stream of matched
tasks, starting from zero counts and empty failure/put lists. -/
def Crawler.crawl (max_failures : Option Nat) (tasks : List CrawlTask) :
    Except PyErr CrawlAcc :=
  Crawler.crawl_loop max_failures ⟨⟨0, 0, 0⟩, [], []⟩ tasks

/-- A task fails iff `_process_one` returns a failure record for it. -/
def CrawlTask.fails (t : CrawlTask) : Bool :=
  (Crawler.process_one t).2.isSome

/-! ### bids2table/logging.py: ProcessedLog -/

/-- One de-serialized processed-log record (the fields `filter_paths`
reads). -/
structure ProcEntry where
  path : String
  error_rate : Rat
  partitions : List String
  deriving DecidableEq, Repr

/-- `Path(root) / p`: Python keeps `p` unchanged when it is absolute. -/
def joinUnder (root p : String) : String :=
  if strStartsWith p "/" then p else root ++ "/" ++ p

/-- `_all_exist(ps, root=db_dir)` (logging.py lines 160-166), with the file
system given as a predicate on absolute paths. -/
def all_exist (fs : String → Bool) (root : String) (ps : List String) : Bool :=
  ps.all (fun p => fs (joinUnder root p))

/-- `df.drop_duplicates(subset="path", keep="last")` followed by the
path-indexed lookup of the left join: the last log entry carrying this
path. -/
def ProcessedLog.lastEntry (log : List ProcEntry) (p : String) : Option ProcEntry :=
  (log.filter (fun e => e.path = p)).getLast?

/-- The per-path decision of `filter_paths`: the combined success mask
(partitions all on disk, and error rate at or below the threshold when one is
configured).  A path missing from the log is never successful. -/
def ProcessedLog.successMask (fs : String → Bool) (db_dir : String)
    (log : List ProcEntry) (thr : Option Rat) (p : String) : Bool :=
  match ProcessedLog.lastEntry log p with
  | none => false
  | some e =>
    all_exist fs db_dir e.partitions &&
      (match thr with
       | none => true
       | some t => decide (e.error_rate ≤ t))

/-- `ProcessedLog.filter_paths` (logging.py lines 114-157): left-join the
candidates with the de-duplicated log; if every candidate is new return them
all; otherwise redo exactly the joined candidates whose success mask is
false, preserving the original order. -/
def ProcessedLog.filter_paths (fs : String → Bool) (db_dir : String)
    (log : List ProcEntry) (thr : Option Rat) (paths : List String) :
    List String :=
  let joined := paths.map (fun p => (p, ProcessedLog.lastEntry log p))
  if (joined.filter (fun pe => pe.2.isNone)).length = paths.length then paths
  else
    paths.filter (fun p =>
      match ProcessedLog.lastEntry log p with
      | none => true
      | some _ => ! ProcessedLog.successMask fs db_dir log thr p)

/-! ### bids2table/utils.py: atomicopen, and writer.py: BufferedParquetWriter -/

/-- Content of one on-disk file: either still being written (an open temp
file) or complete. -/
inductive FileData where
  | part (content : String)
  | full (content : String)
  deriving DecidableEq, Repr

/-- The file system: a finite map from path to file data. -/
abbrev FS := List (String × FileData)

def fsRemove (fs : FS) (p : String) : FS := fs.filter (fun e => e.1 ≠ p)

/-- Index of the last occurrence of `c`, as in Python `s.rfind(c)`. -/
def lastIdxOf (c : Char) : List Char → Option Nat
  | [] => none
  | a :: rest =>
    match lastIdxOf c rest with
    | some i => some (i + 1)
    | none => if a = c then some 0 else none

/-- `pathlib.PurePath.suffix` of a file name: `name[i:]` for
`i = name.rfind(".")` when `0 < i < len(name) - 1`, else the empty string. -/
def nameSuffix (name : String) : String :=
  match lastIdxOf '.' name.data with
  | some i =>
    if 0 < i ∧ i < name.data.length - 1 then String.mk (name.data.drop i) else ""
  | none => ""

/-- The final component of a posix path string. -/
def baseName (p : String) : String :=
  (pathComponents p).getLastD ""

/-- The parent directory of a posix path string. -/
def dirName (p : String) : String :=
  joinComponents ((pathComponents p).dropLast)

/-- Name of the `tempfile.NamedTemporaryFile` opened by `atomicopen`:
in `path.parent`, with prefix `.tmp-` and the suffix of `path`; `salt` stands
for the random part of the name. -/
def tmpName (path salt : String) : String :=
  dirName path ++ "/.tmp-" ++ salt ++ nameSuffix (baseName path)

/-- A run of the `atomicopen` context manager: every intermediate file-system
state in order (the last one is the state after the context manager exits),
and the propagated result. -/
structure AtomicRun where
  trace : List FS
  final : FS
  result : Except String Unit
  deriving Repr

/-- `atomicopen` (utils.py lines 173-197): reject non-write modes; create the
temp file next to `path`; run the body (modelled by its outcome: the fully
serialized content, or the exception it raises); on failure close and remove
the temp file and re-raise; on success close and `os.replace` the temp file
onto `path`. -/
def atomicopen (fs0 : FS) (path salt mode : String)
    (body : Except String String) : AtomicRun :=
  if ¬ (strStartsWith mode "w" ∨ strStartsWith mode "x") then
    { trace := [fs0], final := fs0, result := .error "Only write modes supported" }
  else
    let tmp := tmpName path salt
    let fs1 := dictSet fs0 tmp (.part "")
    match body with
    | .error e =>
      let fs2 := fsRemove fs1 tmp
      { trace := [fs0, fs1, fs2], final := fs2, result := .error e }
    | .ok content =>
      let fs2 := dictSet fs1 tmp (.full content)
      let fs3 := dictSet (fsRemove fs2 tmp) path (.full content)
      { trace := [fs0, fs1, fs2, fs3], final := fs3, result := .ok () }

/-- `BufferedParquetWriter._flush_task` (writer.py lines 154-157): serialize
the buffered table inside `atomicopen(path, "wb")`.  `serialize` is the
outcome of `pq.write_table`: the bytes written, or the exception raised. -/
def BufferedParquetWriter.flush_task (fs : FS) (path salt : String)
    (serialize : Except String String) : AtomicRun :=
  atomicopen fs path salt "wb" serialize

/-! ### utils.py: parse_size -/

/-- The character class of the first regex group `[0-9.\s]+`. -/
def numClass (c : Char) : Bool := c.isDigit || c = '.' || c.isWhitespace

/-- The size units of `parse_size`, in the alternation order of the regex. -/
def sizeUnits : List (String × Nat) :=
  [("b", 1), ("kb", 1000), ("mb", 1000000), ("gb", 1000000000),
   ("kib", 1024), ("mib", 1048576), ("gib", 1073741824)]

/-- Case-insensitive prefix test used for the unit alternation. -/
def lowerPrefixMatches : List Char → List Char → Bool
  | [], _ => true
  | _ :: _, [] => false
  | a :: us, c :: cs => a = c.toLower && lowerPrefixMatches us cs

/-- First unit of the alternation matching at this position. -/
def matchUnit (s : List Char) : Option Nat :=
  (sizeUnits.find? (fun u => lowerPrefixMatches u.1.data s)).map (fun u => u.2)

/-- Backtracking of the greedy group `[0-9.\s]+`: try the split at `j`, then
at `j - 1`, down to `1`. -/
def splitNumUnit (cs : List Char) : Nat → Option (List Char × Nat)
  | 0 => none
  | j + 1 =>
    match matchUnit (cs.drop (j + 1)) with
    | some u => some (cs.take (j + 1), u)
    | none => splitNumUnit cs j

/-- `re.match(r"([0-9.\s]+)(b|kb|mb|gb|kib|mib|gib)", size, re.IGNORECASE)`:
the numeric group and the matched unit value. -/
def parseSizeMatch (cs : List Char) : Option (List Char × Nat) :=
  splitNumUnit cs (cs.takeWhile numClass).length

def digitsToNat (cs : List Char) : Nat :=
  cs.foldl (fun a c => 10 * a + (c.toNat - 48)) 0

/-- Python `float()` restricted to the strings the numeric group can produce
(digits, dots and whitespace): strip whitespace, then digits with at most one
dot; fails on interior whitespace, several dots, or a bare dot. -/
def pyFloat (cs : List Char) : Option Rat :=
  let t := ((cs.dropWhile Char.isWhitespace).reverse.dropWhile Char.isWhitespace).reverse
  let intPart := t.takeWhile Char.isDigit
  match t.drop intPart.length with
  | [] => if intPart.isEmpty then none else some ((digitsToNat intPart : Nat) : Rat)
  | '.' :: fracs =>
    if fracs.all Char.isDigit && !(intPart.isEmpty && fracs.isEmpty) then
      some (((digitsToNat (intPart ++ fracs) : Nat) : Rat) / ((10 : Rat) ^ fracs.length))
    else none
  | _ => none

/-- Python `int()` on a float: truncation toward zero. -/
def pyTrunc (q : Rat) : Int := if q < 0 then -((-q).floor) else q.floor

/-- `parse_size` (utils.py lines 266-292). -/
def parse_size (s : String) : Except PyErr Int :=
  match parseSizeMatch s.data with
  | none => .error (.valueError "size did not match any of the units")
  | some (numcs, unit) =>
    match pyFloat numcs with
    | none => .error (.valueError "could not convert string to float")
    | some q => .ok (pyTrunc (q * (unit : Rat)))

/-! ### writer.py: BufferedParquetWriter buffering -/

/-- One incoming table batch, abstracted to an identity and its pyarrow
buffer size (`pa.concat_tables` keeps the underlying buffers, so the size of
the concatenated table is the sum of the batch sizes). -/
structure Batch where
  id : Nat
  size : Nat
  deriving DecidableEq, Repr

/-- Buffering state of a `BufferedParquetWriter`: the path prefix (and
whether it is a directory), the partition size threshold in bytes, the
concatenated batch buffer (`self._table`, `None` iff empty), and the
partition counter. -/
structure WriterState where
  pref : String
  prefix_is_dir : Bool
  partition_size_bytes : Int
  buffer : List Batch
  part : Nat
  deriving DecidableEq, Repr

/-- `f"{n:04d}"`. -/
def zpad4 (n : Nat) : String :=
  if n < 10 then "000" ++ toString n
  else if n < 100 then "00" ++ toString n
  else if n < 1000 then "0" ++ toString n
  else toString n

/-- `BufferedParquetWriter.path` (writer.py lines 93-102). -/
def BufferedParquetWriter.path (st : WriterState) : String :=
  if st.prefix_is_dir then st.pref ++ "/" ++ zpad4 st.part ++ ".parquet"
  else st.pref ++ "-" ++ zpad4 st.part ++ ".parquet"

/-- `self._table.get_total_buffer_size()`. -/
def bufferSize (bs : List Batch) : Int := (bs.map (fun b => (b.size : Int))).sum

/-- A completed hand-off to the background flush worker: the partition path
and the batches serialized into it. -/
structure FlushEvent where
  path : String
  batches : List Batch
  deriving DecidableEq, Repr

/-- `BufferedParquetWriter.flush` (writer.py lines 121-152): nothing happens
on an empty buffer; otherwise the buffer is handed to the worker targeting
the current partition path, the buffer is cleared and the partition counter
advanced. -/
def BufferedParquetWriter.flush (st : WriterState) :
    WriterState × Option FlushEvent :=
  match st.buffer with
  | [] => (st, none)
  | _ :: _ =>
    ({ st with buffer := [], part := st.part + 1 },
     some ⟨BufferedParquetWriter.path st, st.buffer⟩)

/-- `BufferedParquetWriter.write` (writer.py lines 65-82): concatenate the
batch onto the buffer, remember `self.path()`, flush iff the buffered size
strictly exceeds the partition size, and return the remembered path. -/
def BufferedParquetWriter.write (st : WriterState) (b : Batch) :
    WriterState × String × Option FlushEvent :=
  let st1 := { st with buffer := st.buffer ++ [b] }
  let partition := BufferedParquetWriter.path st1
  if bufferSize st1.buffer > st.partition_size_bytes then
    let fe := BufferedParquetWriter.flush st1
    (fe.1, partition, fe.2)
  else (st1, partition, none)

/-- A write stream: feed the batches one by one, collecting the returned
partition path of each write and the flush events in order. -/
def BufferedParquetWriter.run (st : WriterState) :
    List Batch → WriterState × List String × List FlushEvent
  | [] => (st, [], [])
  | b :: rest =>
    let wr := BufferedParquetWriter.write st b
    let rr := BufferedParquetWriter.run wr.1 rest
    (rr.1, wr.2.1 :: rr.2.1, wr.2.2.toList ++ rr.2.2)

/-! ### bids2table/schema.py: Schema.coerce

Values live in pandas cells, so a cell is `Option PyVal` (`none` is the null
the code writes into missing columns before casting).  Dtypes are opaque
tags; the per-cell cast performed by `DataFrame.astype` and the dtype
inference performed by `pd.DataFrame.from_records` are parameters `castV`
and `inferD` of the embedding -- theorems quantify over them. -/

abbrev Dtype := String

/-- A `Schema` (schema.py lines 50-81): ordered mapping of column name to
(already canonicalized) dtype. -/
structure Schema where
  fields : List (String × Dtype)
  deriving DecidableEq, Repr

/-- `Schema.columns`. -/
def Schema.columns (s : Schema) : List String := s.fields.map (fun f => f.1)

def Schema.dtypeOf (s : Schema) (c : String) : Dtype :=
  (dictGet s.fields c).getD "object"

/-- `np.setdiff1d` returns the sorted unique values. -/
def sortedStrings (l : List String) : List String :=
  List.insertionSort (fun a b => strLe a b = true) l

/-- `Schema.matches(df, strict=True)`: the dtype series (column names and
inferred dtypes, in order) coincide exactly. -/
def Schema.matchesStrict (inferD : Option PyVal → Dtype) (s : Schema)
    (df : List (String × Option PyVal)) : Bool :=
  decide (s.fields = df.map (fun cv => (cv.1, inferD cv.2)))

/-- `Schema._coerce_pandas` (schema.py lines 149-162): if the frame already
matches strictly return it unchanged; otherwise append the (sorted) missing
schema columns filled with null, select the schema columns in schema order,
and `astype` every column to its declared dtype. -/
def Schema.coerce_pandas (castV : Dtype → Option PyVal → Except PyErr (Option PyVal))
    (inferD : Option PyVal → Dtype) (s : Schema)
    (df : List (String × Option PyVal)) : Except PyErr (List (String × Option PyVal)) :=
  if Schema.matchesStrict inferD s df then .ok df
  else
    let missing := sortedStrings (s.columns.filter (fun c => (dictGet df c).isNone))
    let df1 := df ++ missing.map (fun c => (c, (none : Option PyVal)))
    let df2 := s.columns.map (fun c => (c, (dictGet df1 c).getD none))
    df2.mapM (fun cv => do
      let v ← castV (s.dtypeOf cv.1) cv.2
      pure (cv.1, v))

/-- `Schema.coerce` on a record dict (schema.py lines 127-147 via
`_coerce_record`/`_coerce_records`): round-trip through a one-row frame. -/
def Schema.coerce (castV : Dtype → Option PyVal → Except PyErr (Option PyVal))
    (inferD : Option PyVal → Dtype) (s : Schema)
    (record : List (String × PyVal)) : Except PyErr (List (String × Option PyVal)) :=
  Schema.coerce_pandas castV inferD s (record.map (fun kv => (kv.1, some kv.2)))

/-- Modelled from the spec: `cast_to_schema(record, schema=..., safe=True,
with_null=...)` is imported by handlers/handler.py from bids2table.schema but
is missing from src.  Spec section 4.1: coercion "reorders fields to schema
order, drops fields not in the schema, casts present values to the target
type ... and either fills missing fields with null (`with_null=true`) or
omits them". -/
def cast_to_schema (castV : Dtype → Option PyVal → Except PyErr (Option PyVal))
    (s : Schema) (record : List (String × PyVal)) (with_null : Bool) :
    Except PyErr (List (String × Option PyVal)) :=
  let cols := if with_null then s.fields
              else s.fields.filter (fun cd => (dictGet record cd.1).isSome)
  cols.mapM (fun cd => do
    let v ← castV cd.2 (dictGet record cd.1)
    pure (cd.1, v))

/-! ### bids2table/handlers/handler.py: Handler.__call__ -/

/-- The state of a `Handler` (handlers/handler.py lines 51-69) that
`__call__` reads. -/
structure Handler where
  schema : Schema
  rename_map : Option (List (String × String))
  overlap_threshold : Option Rat
  deriving DecidableEq, Repr

def Handler.DELETE : String := "__delete__"

/-- `Handler.apply_renaming` (handlers/handler.py lines 117-133): identity
when the rename map or the record is falsy; otherwise drop keys mapped to the
delete symbol and rename the rest, rebuilding a dict (first position, last
value for clashes). -/
def Handler.apply_renaming (rm : Option (List (String × String)))
    (record : Option (List (String × PyVal))) : Option (List (String × PyVal)) :=
  match rm, record with
  | some m, some r =>
    if m.isEmpty || r.isEmpty then record
    else
      some (((r.filter (fun kv => dictGet m kv.1 ≠ some Handler.DELETE)).map
          (fun kv => ((dictGet m kv.1).getD kv.1, kv.2))).foldl
        (fun d kv => dictSet d kv.1 kv.2) [])
  | _, _ => record

/-- The overlap ratio `|record ∩ schema| / |schema|` computed by `__call__`
(handlers/handler.py line 93).  Division by zero (an empty schema) would be a
`ZeroDivisionError` in Python; theorems only use nonempty schemas. -/
def Handler.overlap (h : Handler) (r : List (String × PyVal)) : Rat :=
  let diff := (r.filter (fun kv => ¬ kv.1 ∈ h.schema.columns)).length
  ((r.length - diff : Nat) : Rat) / ((h.schema.columns.length : Nat) : Rat)

/-- `Handler.__call__` (handlers/handler.py lines 79-115): load (the load
outcome is the argument), rename, return falsy records unchanged; when the
overlap is below 1 and the configured threshold is truthy (set and nonzero)
and the overlap is below it, log a warning and return `None`; otherwise cast
to the schema with `CAST_WITH_NULL = False`. -/
def Handler.call (castV : Dtype → Option PyVal → Except PyErr (Option PyVal))
    (h : Handler) (loaded : Option (List (String × PyVal))) :
    Except PyErr (Option (List (String × Option PyVal))) :=
  match Handler.apply_renaming h.rename_map loaded with
  | none => .ok none
  | some r =>
    if r.isEmpty then .ok (some [])
    else
      let ov := h.overlap r
      let discard : Bool :=
        decide (ov < 1) &&
          (match h.overlap_threshold with
           | none => false
           | some thr => !(decide (thr = 0)) && decide (ov < thr))
      if discard then .ok none
      else do
        let out ← cast_to_schema castV h.schema r false
        pure (some out)

/-! ### bids2table/utils.py: PatternLUT and fnmatch

`fnmatch.fnmatch` translates the glob pattern to a regex: `*` matches any
run of characters (including the separator), `?` any single character, and
`[...]` a character class (leading `!` negates, `a-b` is a range, a `[`
without a closing `]` is literal, and a `]` directly after the opening of the
class is part of the class). -/

/-- Ranges denoted by a character-class body (`a` alone is the range
`a..a`). -/
def classElems : List Char → List (Char × Char)
  | [] => []
  | a :: '-' :: b :: rest => (a, b) :: classElems rest
  | a :: rest => (a, a) :: classElems rest

/-- Membership of a character in a class body, with leading-`!` negation. -/
def classMatch (content : List Char) (c : Char) : Bool :=
  match content with
  | '!' :: rest => !((classElems rest).any (fun r => decide (r.1 ≤ c) && decide (c ≤ r.2)))
  | _ => (classElems content).any (fun r => decide (r.1 ≤ c) && decide (c ≤ r.2))

/-- Position of the first occurrence of `c` at index `start` or later. -/
def idxOfFrom (c : Char) (cs : List Char) (start : Nat) : Option Nat :=
  match (cs.drop start).findIdx? (fun a => a = c) with
  | some k => some (start + k)
  | none => none

/-- Index of the `]` closing a character class, given the characters after
the opening `[`: a leading `!`, and a `]` directly after it, do not close the
class; `none` means the `[` is literal. -/
def splitClassIdx (ps : List Char) : Option Nat :=
  let j0 := if ps.head? = some '!' then 1 else 0
  let j1 := if (ps.drop j0).head? = some ']' then j0 + 1 else j0
  idxOfFrom ']' ps j1

/-- The translated-regex full match of `fnmatch` on character lists:
pattern against text. -/
def glMatch : List Char → List Char → Bool
  | [], [] => true
  | [], _ :: _ => false
  | '*' :: ps, ts =>
    glMatch ps ts ||
      (match ts with
       | [] => false
       | _ :: ts2 => glMatch ('*' :: ps) ts2)
  | '?' :: ps, ts =>
    (match ts with
     | [] => false
     | _ :: ts2 => glMatch ps ts2)
  | '[' :: ps, ts =>
    (match splitClassIdx ps with
     | none =>
       match ts with
       | [] => false
       | c :: ts2 => ('[' = c) && glMatch ps ts2
     | some k =>
       match ts with
       | [] => false
       | c :: ts2 => classMatch (ps.take k) c && glMatch (ps.drop (k + 1)) ts2)
  | _ :: _, [] => false
  | p :: ps, c :: ts => (p = c) && glMatch ps ts
termination_by p t => p.length + t.length
decreasing_by
  all_goals simp_wf
  all_goals omega

/-- `fnmatch.fnmatch(query, pattern)` (case is preserved on posix). -/
def fnmatch (query pat : String) : Bool := glMatch pat.data query.data

/-- A query path, modelled as the component list of the normalized relative
posix path that `Path(path)` denotes: nonempty components, none containing a
separator. -/
abbrev PathC := List String

/-- `Path.name`. -/
def pathName (p : PathC) : String := p.getLastD ""

/-- `Path.suffix` of the query path. -/
def pathSuffix (p : PathC) : String := nameSuffix (pathName p)

/-- `Path.as_posix()`. -/
def asPosix (p : PathC) : String := joinComponents p

/-- The bucket suffix assigned to a pattern by `PatternLUT.__init__`
(utils.py lines 49-64): the empty suffix for a pattern whose last character
is one of `]*?` (logged with a warning), else `Path(pattern).suffix`.  An
empty pattern raises `IndexError` at `pattern[-1]`; theorems assume patterns
are nonempty. -/
def patternSuffix (pat : String) : String :=
  match pat.data.getLast? with
  | none => ""
  | some c =>
    if c = ']' ∨ c = '*' ∨ c = '?' then "" else nameSuffix (baseName pat)

/-- Append an item to its suffix bucket (`defaultdict(list)` keeps bucket
insertion order and appends at the end). -/
def lutAppend {T : Type} (buckets : List (String × List (String × Bool × T)))
    (suffix : String) (item : String × Bool × T) :
    List (String × List (String × Bool × T)) :=
  match buckets with
  | [] => [(suffix, [item])]
  | (s, l) :: rest =>
    if s = suffix then (s, l ++ [item]) :: rest
    else (s, l) :: lutAppend rest suffix item

/-- `PatternLUT.__init__` (utils.py lines 49-64): bucket the
`(pattern, match_whole, value)` triples by the pattern suffix, where
`match_whole` is `"/" in pattern`. -/
def PatternLUT.build {T : Type} (items : List (String × T)) :
    List (String × List (String × Bool × T)) :=
  items.foldl
    (fun bs it => lutAppend bs (patternSuffix it.1) (it.1, it.1.data.contains '/', it.2)) []

/-- `PatternLUT.lookup` (utils.py lines 66-74): run full glob matching over
the bucket of the path's suffix only, matching the whole posix path for
patterns containing a separator and the base name otherwise. -/
def PatternLUT.lookup {T : Type} (items : List (String × T)) (p : PathC) :
    List (String × T) :=
  ((dictGet (PatternLUT.build items) (pathSuffix p)).getD []).filterMap
    (fun e =>
      if fnmatch (if e.2.1 then asPosix p else pathName p) e.1 then
        some (e.1, e.2.2)
      else none)

/-- Matching every pattern directly, without the suffix bucketing: the
reference the claim compares `lookup` against. -/
def directMatches {T : Type} (items : List (String × T)) (p : PathC) :
    List (String × T) :=
  items.filter
    (fun it => fnmatch (if it.1.data.contains '/' then asPosix p else pathName p) it.1)

/-- A key containing at least one element that is neither `int` nor `str`
(for a bare key, the element is the key itself). -/
def keyHasBadElem : PyKey → Bool
  | .scalar v => ! isIntOrStr v
  | .tup vs => vs.any (fun v => ! isIntOrStr v)

/-! ## Theorems -/

theorem dictGet_dictSet_self {κ α : Type} [DecidableEq κ]
    (d : List (κ × α)) (k : κ) (v : α) : dictGet (dictSet d k v) k = some v := by
  induction d with
  | nil => simp [dictSet, dictGet]
  | cons hd tl ih =>
    obtain ⟨k1, v1⟩ := hd
    by_cases hk : k1 = k
    · simp [dictSet, hk, dictGet]
    · simp [dictSet, hk, dictGet, ih]

theorem dictGet_dictSet_ne {κ α : Type} [DecidableEq κ]
    (d : List (κ × α)) (k k2 : κ) (v : α) (h : k ≠ k2) :
    dictGet (dictSet d k v) k2 = dictGet d k2 := by
  induction d with
  | nil => simp [dictSet, dictGet, h]
  | cons hd tl ih =>
    obtain ⟨k1, v1⟩ := hd
    by_cases hk : k1 = k
    · subst hk
      simp [dictSet, dictGet, h]
    · simp [dictSet, hk, dictGet, ih]

theorem dictGet_fsRemove_self (fs : FS) (p : String) :
    dictGet (fsRemove fs p) p = none := by
  induction fs with
  | nil => rfl
  | cons hd tl ih =>
    obtain ⟨q, d⟩ := hd
    by_cases hq : q = p
    · rw [show fsRemove ((q, d) :: tl) p = fsRemove tl p from by simp [fsRemove, hq]]
      exact ih
    · rw [show fsRemove ((q, d) :: tl) p = (q, d) :: fsRemove tl p from by
        simp [fsRemove, hq]]
      simp [dictGet, hq, ih]

theorem dictGet_fsRemove_ne (fs : FS) (p q : String) (h : q ≠ p) :
    dictGet (fsRemove fs q) p = dictGet fs p := by
  induction fs with
  | nil => rfl
  | cons hd tl ih =>
    obtain ⟨r, d⟩ := hd
    by_cases hr : r = q
    · subst hr
      rw [show fsRemove ((r, d) :: tl) r = fsRemove tl r from by simp [fsRemove]]
      rw [ih]
      simp [dictGet, h]
    · rw [show fsRemove ((r, d) :: tl) q = (r, d) :: fsRemove tl q from by
        simp [fsRemove, hr]]
      by_cases hp : r = p
      · simp [dictGet, hp]
      · simp [dictGet, hp, ih]

/-- C1: `ProcessedLog.filter_paths` removes a candidate path exactly when it
has a log entry whose most recent record has every recorded partition path
(resolved relative to the db dir) on disk and, when an error-rate threshold
is given, an error rate at or below it; every other candidate (including
paths with no entry) is kept in the original order.  Consequently a rerun
over only successfully processed paths has nothing left to do. -/
theorem C1_filter_paths_spec (fs : String → Bool) (db_dir : String)
    (log : List ProcEntry) (thr : Option Rat) (paths : List String) :
    ProcessedLog.filter_paths fs db_dir log thr paths =
      paths.filter (fun p => ! ProcessedLog.successMask fs db_dir log thr p) ∧
    ((∀ p ∈ paths, ProcessedLog.successMask fs db_dir log thr p = true) →
      ProcessedLog.filter_paths fs db_dir log thr paths = []) := by
  have hmain : ProcessedLog.filter_paths fs db_dir log thr paths =
      paths.filter (fun p => ! ProcessedLog.successMask fs db_dir log thr p) := by
    unfold ProcessedLog.filter_paths
    by_cases hall :
        (((paths.map fun p => (p, ProcessedLog.lastEntry log p)).filter
          (fun pe => pe.2.isNone)).length = paths.length)
    · rw [if_pos hall]
      rw [List.filter_map, List.length_map] at hall
      have h2 : ∀ p ∈ paths, (ProcessedLog.lastEntry log p).isNone = true := by
        intro p hp
        exact List.filter_length_eq_length.mp hall p hp
      symm
      apply List.filter_eq_self.mpr
      intro p hp
      have hnone : ProcessedLog.lastEntry log p = none :=
        Option.isNone_iff_eq_none.mp (h2 p hp)
      simp [ProcessedLog.successMask, hnone]
    · rw [if_neg hall]
      apply List.filter_congr
      intro p _
      cases he : ProcessedLog.lastEntry log p with
      | none => simp [ProcessedLog.successMask, he]
      | some e => simp
  refine ⟨hmain, fun h => ?_⟩
  rw [hmain]
  apply List.filter_eq_nil_iff.mpr
  intro p hp
  simp [h p hp]

/-- C1 witness: a single already-successful path is filtered down to an empty
todo list. -/
theorem C1_filter_paths_spec_witness :
    (∀ p ∈ ["/data/s1"],
       ProcessedLog.successMask (fun _ => true) "/db"
         [⟨"/data/s1", 0, ["tab/0000.parquet"]⟩] none p = true) ∧
    ProcessedLog.filter_paths (fun _ => true) "/db"
      [⟨"/data/s1", 0, ["tab/0000.parquet"]⟩] none ["/data/s1"] = [] :=
  ⟨by decide, (C1_filter_paths_spec (fun _ => true) "/db"
      [⟨"/data/s1", 0, ["tab/0000.parquet"]⟩] none ["/data/s1"]).2 (by decide)⟩

/-- C2: a partition flush serializes into a `.tmp-` file next to the
destination and only renames it onto the partition path after the write
completed: the partition path is untouched in every intermediate state; on
failure the error propagates, the temp file is removed and nothing ever
appears at the partition path; on success the partition path holds the
complete file -- so the partition path always holds a complete file or
nothing. -/
theorem C2_flush_atomic (fs0 : FS) (path salt : String)
    (serialize : Except String String)
    (hfresh : dictGet fs0 path = none)
    (htmp : tmpName path salt ≠ path) :
    tmpName path salt = dirName path ++ "/.tmp-" ++ salt ++ nameSuffix (baseName path) ∧
    (∀ s ∈ (BufferedParquetWriter.flush_task fs0 path salt serialize).trace.dropLast,
       dictGet s path = none) ∧
    (∀ e, serialize = .error e →
       (BufferedParquetWriter.flush_task fs0 path salt serialize).result = .error e ∧
       dictGet (BufferedParquetWriter.flush_task fs0 path salt serialize).final
         (tmpName path salt) = none ∧
       dictGet (BufferedParquetWriter.flush_task fs0 path salt serialize).final
         path = none) ∧
    (∀ c, serialize = .ok c →
       (BufferedParquetWriter.flush_task fs0 path salt serialize).result = .ok () ∧
       dictGet (BufferedParquetWriter.flush_task fs0 path salt serialize).final
         path = some (.full c)) ∧
    (∀ s ∈ (BufferedParquetWriter.flush_task fs0 path salt serialize).trace,
       dictGet s path = none ∨ ∃ c, dictGet s path = some (.full c)) := by
  have h1 : dictGet (dictSet fs0 (tmpName path salt) (.part "")) path = none := by
    rw [dictGet_dictSet_ne _ _ _ _ htmp]
    exact hfresh
  cases serialize with
  | error e =>
    have hrun : BufferedParquetWriter.flush_task fs0 path salt (.error e) =
        { trace := [fs0, dictSet fs0 (tmpName path salt) (.part ""),
                    fsRemove (dictSet fs0 (tmpName path salt) (.part ""))
                      (tmpName path salt)]
          final := fsRemove (dictSet fs0 (tmpName path salt) (.part ""))
            (tmpName path salt)
          result := .error e } := by
      unfold BufferedParquetWriter.flush_task atomicopen
      rw [if_neg (by decide)]
    have h2 : dictGet (fsRemove (dictSet fs0 (tmpName path salt) (.part ""))
        (tmpName path salt)) path = none := by
      rw [dictGet_fsRemove_ne _ _ _ htmp]
      exact h1
    refine ⟨rfl, ?_, ?_, ?_, ?_⟩
    · intro s hs
      rw [hrun] at hs
      simp only [List.dropLast, List.mem_cons, List.not_mem_nil, or_false] at hs
      rcases hs with hs | hs
      · rw [hs]; exact hfresh
      · rw [hs]; exact h1
    · intro e2 he
      cases he
      rw [hrun]
      exact ⟨rfl, dictGet_fsRemove_self _ _, h2⟩
    · intro c hc
      cases hc
    · intro s hs
      rw [hrun] at hs
      simp only [List.mem_cons, List.not_mem_nil, or_false] at hs
      rcases hs with hs | hs | hs
      · rw [hs]; exact Or.inl hfresh
      · rw [hs]; exact Or.inl h1
      · rw [hs]; exact Or.inl h2
  | ok c =>
    have hrun : BufferedParquetWriter.flush_task fs0 path salt (.ok c) =
        { trace := [fs0, dictSet fs0 (tmpName path salt) (.part ""),
                    dictSet (dictSet fs0 (tmpName path salt) (.part ""))
                      (tmpName path salt) (.full c),
                    dictSet (fsRemove (dictSet (dictSet fs0 (tmpName path salt) (.part ""))
                        (tmpName path salt) (.full c)) (tmpName path salt))
                      path (.full c)]
          final := dictSet (fsRemove (dictSet (dictSet fs0 (tmpName path salt) (.part ""))
              (tmpName path salt) (.full c)) (tmpName path salt))
            path (.full c)
          result := .ok () } := by
      unfold BufferedParquetWriter.flush_task atomicopen
      rw [if_neg (by decide)]
    have h2 : dictGet (dictSet (dictSet fs0 (tmpName path salt) (.part ""))
        (tmpName path salt) (.full c)) path = none := by
      rw [dictGet_dictSet_ne _ _ _ _ htmp]
      exact h1
    refine ⟨rfl, ?_, ?_, ?_, ?_⟩
    · intro s hs
      rw [hrun] at hs
      simp only [List.dropLast, List.mem_cons, List.not_mem_nil, or_false] at hs
      rcases hs with hs | hs | hs
      · rw [hs]; exact hfresh
      · rw [hs]; exact h1
      · rw [hs]; exact h2
    · intro e2 he
      cases he
    · intro c2 hc
      cases hc
      rw [hrun]
      exact ⟨rfl, dictGet_dictSet_self _ _ _⟩
    · intro s hs
      rw [hrun] at hs
      simp only [List.mem_cons, List.not_mem_nil, or_false] at hs
      rcases hs with hs | hs | hs | hs
      · rw [hs]; exact Or.inl hfresh
      · rw [hs]; exact Or.inl h1
      · rw [hs]; exact Or.inl h2
      · rw [hs]
        exact Or.inr ⟨c, dictGet_dictSet_self _ _ _⟩

/-- C2 witness: a successful flush of concrete bytes onto a fresh partition
path leaves exactly the complete file there. -/
theorem C2_flush_atomic_witness :
    dictGet ([] : FS) "out/0000.parquet" = none ∧
    tmpName "out/0000.parquet" "rnd" ≠ "out/0000.parquet" ∧
    dictGet (BufferedParquetWriter.flush_task [] "out/0000.parquet" "rnd"
        (.ok "bytes")).final "out/0000.parquet" = some (.full "bytes") :=
  ⟨rfl, by decide,
    ((C2_flush_atomic [] "out/0000.parquet" "rnd" (.ok "bytes") rfl
        (by decide)).2.2.2.1 "bytes" rfl).2⟩

theorem crawl_none_loop (tasks : List CrawlTask) :
    ∀ acc : CrawlAcc,
      Crawler.crawl_loop none acc tasks =
        .ok ⟨⟨acc.counts.total + tasks.length,
              acc.counts.process +
                (tasks.filter (fun t => (Crawler.process_one t).1.isSome)).length,
              acc.counts.error + (tasks.filter CrawlTask.fails).length⟩,
             acc.errors ++ tasks.filterMap (fun t => (Crawler.process_one t).2),
             acc.puts ++ tasks.filterMap (fun t =>
               ((Crawler.process_one t).1).map (fun kr => (t.label, kr)))⟩ := by
  induction tasks with
  | nil => intro acc; simp [Crawler.crawl_loop]
  | cons t rest ih =>
    intro acc
    rcases hP : Crawler.process_one t with ⟨data, err⟩
    cases data with
    | none =>
      cases err with
      | none =>
        have hstep : Crawler.crawl_step none acc t = .ok
            ⟨⟨acc.counts.total + 1, acc.counts.process, acc.counts.error⟩,
             acc.errors, acc.puts⟩ := by
          simp [Crawler.crawl_step, hP]
        simp only [Crawler.crawl_loop, hstep]
        rw [ih]
        simp [CrawlTask.fails, hP, List.filter_cons, List.filterMap_cons]
        all_goals omega
      | some e =>
        have hstep : Crawler.crawl_step none acc t = .ok
            ⟨⟨acc.counts.total + 1, acc.counts.process, acc.counts.error + 1⟩,
             acc.errors ++ [e], acc.puts⟩ := by
          simp [Crawler.crawl_step, hP]
        simp only [Crawler.crawl_loop, hstep]
        rw [ih]
        simp [CrawlTask.fails, hP, List.filter_cons, List.filterMap_cons]
        all_goals omega
    | some kr =>
      cases err with
      | none =>
        have hstep : Crawler.crawl_step none acc t = .ok
            ⟨⟨acc.counts.total + 1, acc.counts.process + 1, acc.counts.error⟩,
             acc.errors, acc.puts ++ [(t.label, kr)]⟩ := by
          simp [Crawler.crawl_step, hP]
        simp only [Crawler.crawl_loop, hstep]
        rw [ih]
        simp [CrawlTask.fails, hP, List.filter_cons, List.filterMap_cons]
        all_goals omega
      | some e =>
        have hstep : Crawler.crawl_step none acc t = .ok
            ⟨⟨acc.counts.total + 1, acc.counts.process + 1, acc.counts.error + 1⟩,
             acc.errors ++ [e], acc.puts ++ [(t.label, kr)]⟩ := by
          simp [Crawler.crawl_step, hP]
        simp only [Crawler.crawl_loop, hstep]
        rw [ih]
        simp [CrawlTask.fails, hP, List.filter_cons, List.filterMap_cons]
        all_goals omega

theorem crawl_some_loop (m : Nat) (tasks : List CrawlTask) :
    ∀ acc : CrawlAcc,
      (Crawler.crawl_loop (some m) acc tasks).isOk = false ↔
        (m ≠ 0 ∧ 1 ≤ (tasks.filter CrawlTask.fails).length ∧
          m ≤ acc.errors.length + (tasks.filter CrawlTask.fails).length) := by
  induction tasks with
  | nil =>
    intro acc
    simp [Crawler.crawl_loop, Except.isOk, Except.toBool]
  | cons t rest ih =>
    intro acc
    rcases hP : Crawler.process_one t with ⟨data, err⟩
    have hfails : CrawlTask.fails t = err.isSome := by
      simp [CrawlTask.fails, hP]
    cases err with
    | none =>
      have hflt : List.filter CrawlTask.fails (t :: rest) =
          List.filter CrawlTask.fails rest := by
        simp [List.filter_cons, hfails]
      cases data with
      | none =>
        have hstep : Crawler.crawl_step (some m) acc t = .ok
            ⟨⟨acc.counts.total + 1, acc.counts.process, acc.counts.error⟩,
             acc.errors, acc.puts⟩ := by
          simp [Crawler.crawl_step, hP]
        simp only [Crawler.crawl_loop, hstep]
        rw [ih, hflt]
      | some kr =>
        have hstep : Crawler.crawl_step (some m) acc t = .ok
            ⟨⟨acc.counts.total + 1, acc.counts.process + 1, acc.counts.error⟩,
             acc.errors, acc.puts ++ [(t.label, kr)]⟩ := by
          simp [Crawler.crawl_step, hP]
        simp only [Crawler.crawl_loop, hstep]
        rw [ih, hflt]
    | some e =>
      have hlen : (List.filter CrawlTask.fails (t :: rest)).length =
          1 + (List.filter CrawlTask.fails rest).length := by
        simp [List.filter_cons, hfails]
        omega
      by_cases habort : m ≠ 0 ∧ m ≤ acc.errors.length + 1
      · have hstep : Crawler.crawl_step (some m) acc t =
            .error (.runtimeError "Max number of failures exceeded") := by
          cases data with
          | none =>
            simp only [Crawler.crawl_step, hP]
            rw [if_pos (by simpa using habort)]
          | some kr =>
            simp only [Crawler.crawl_step, hP]
            rw [if_pos (by simpa using habort)]
        simp only [Crawler.crawl_loop, hstep]
        obtain ⟨hm0, hm1⟩ := habort
        simp [Except.isOk, Except.toBool, hlen]
        omega
      · have hstep : Crawler.crawl_step (some m) acc t = .ok
            (match data with
             | some kr =>
               ⟨⟨acc.counts.total + 1, acc.counts.process + 1, acc.counts.error + 1⟩,
                acc.errors ++ [e], acc.puts ++ [(t.label, kr)]⟩
             | none =>
               ⟨⟨acc.counts.total + 1, acc.counts.process, acc.counts.error + 1⟩,
                acc.errors ++ [e], acc.puts⟩) := by
          cases data with
          | none =>
            simp only [Crawler.crawl_step, hP]
            rw [if_neg (fun hc => habort ⟨hc.1, by simpa using hc.2⟩)]
          | some kr =>
            simp only [Crawler.crawl_step, hP]
            rw [if_neg (fun hc => habort ⟨hc.1, by simpa using hc.2⟩)]
        cases data with
        | none =>
          simp only [Crawler.crawl_loop, hstep]
          rw [ih]
          simp only [List.length_append, List.length_singleton, hlen]
          omega
        | some kr =>
          simp only [Crawler.crawl_loop, hstep]
          rw [ih]
          simp only [List.length_append, List.length_singleton, hlen]
          omega

/-- C3 (amended): a single extraction failure is caught, recorded in the
failure list and counted in `counts.error` without aborting; with no
`max_failures` the crawl always completes with `total` = number of tasks and
one recorded failure per failing task, and with `max_failures = m` the crawl
raises a fatal error exactly when `m` is nonzero and the number of failures
reaches `m` (the code aborts at `len(errors) >= max_failures`, and a zero
threshold is falsy, i.e. no threshold). -/
theorem C3_crawl_error_policy (tasks : List CrawlTask) :
    Crawler.crawl none tasks =
      .ok ⟨⟨tasks.length,
            (tasks.filter (fun t => (Crawler.process_one t).1.isSome)).length,
            (tasks.filter CrawlTask.fails).length⟩,
           tasks.filterMap (fun t => (Crawler.process_one t).2),
           tasks.filterMap (fun t =>
             ((Crawler.process_one t).1).map (fun kr => (t.label, kr)))⟩ ∧
    (∀ m : Nat, (Crawler.crawl (some m) tasks).isOk = false ↔
       m ≠ 0 ∧ m ≤ (tasks.filter CrawlTask.fails).length) := by
  constructor
  · have h := crawl_none_loop tasks ⟨⟨0, 0, 0⟩, [], []⟩
    simpa [Crawler.crawl] using h
  · intro m
    have h := crawl_some_loop m tasks ⟨⟨0, 0, 0⟩, [], []⟩
    rw [Crawler.crawl, h]
    simp only [List.length_nil]
    constructor
    · rintro ⟨h1, _, h3⟩
      exact ⟨h1, by omega⟩
    · rintro ⟨h1, h2⟩
      have hm : m ≠ 0 := h1
      refine ⟨h1, by omega, by omega⟩

/-- C3 counterexample: with `max_failures = 1` the crawl aborts at the first
failure, although one failure does not exceed the threshold of one; and with
`max_failures = 0` (a configured threshold) two failures never abort. -/
theorem C3_counterexample :
    (Crawler.crawl (some 1)
       [⟨"/d/f", "*", "IdxErr", "H", "lab", .raises "boom", .retNone⟩]).isOk
      = false ∧
    (Crawler.crawl (some 0)
       [⟨"/d/f", "*", "IdxErr", "H", "lab", .raises "boom", .retNone⟩,
        ⟨"/d/g", "*", "IdxErr", "H", "lab", .raises "boom", .retNone⟩]).isOk
      = true := by
  constructor <;> rfl

/-- C3 witness: the abort characterization evaluated at a concrete task
list. -/
theorem C3_crawl_error_policy_witness :
    ((Crawler.crawl (some 2)
        [⟨"/d/f", "*", "IdxErr", "H", "lab", .raises "boom", .retNone⟩]).isOk
          = false ↔
      (2 : Nat) ≠ 0 ∧
        2 ≤ (List.filter CrawlTask.fails
          [⟨"/d/f", "*", "IdxErr", "H", "lab", .raises "boom", .retNone⟩]).length) :=
  (C3_crawl_error_policy
    [⟨"/d/f", "*", "IdxErr", "H", "lab", .raises "boom", .retNone⟩]).2 2

/-- C4 (amended): `Table.put` rejects a tuple key of the wrong arity and a
bare key when there is more than one index column (a ValueError), and an
undeclared column group (a KeyError); but a record field that is not in the
declared group schema is silently ignored: the stored row reads exactly the
declared columns via `record.get`. -/
theorem C4_put_validation (t : Table) (g : String)
    (record : List (String × PyVal)) :
    (∀ vs, vs.length ≠ t.index_names.length →
       Table.put t (.tup vs) g record =
         .error (.valueError "Invalid key; expected same length as index_names")) ∧
    (∀ v, t.index_names.length ≠ 1 →
       Table.put t (.scalar v) g record =
         .error (.valueError
           "Invalid key; a tuple is required unless there is a single index column")) ∧
    (∀ key nk, Table.check_key t.index_names key = .ok nk →
       dictGet t.column_groups g = none →
       Table.put t key g record = .error (.keyError g)) ∧
    (∀ key nk cols, Table.check_key t.index_names key = .ok nk →
       dictGet t.column_groups g = some cols →
       Table.put t key g record = .ok { t with
         table := dictSet t.table g
           (dictSet ((dictGet t.table g).getD []) nk
             (cols.map (fun c => dictGet record c))) }) := by
  refine ⟨?_, ?_, ?_, ?_⟩
  · intro vs h
    simp [Table.put, Table.check_key, h]
  · intro v h
    simp [Table.put, Table.check_key, h]
  · intro key nk hk hg
    simp [Table.put, hk, hg]
  · intro key nk cols hk hg
    simp [Table.put, hk, hg]

/-- C4 counterexample: a `put` whose record carries the undeclared field
`"z"` is accepted, and the stored row silently drops it -- the claim says it
must be rejected. -/
theorem C4_counterexample :
    Table.put ⟨[("A", ["a"])], ["i"], some [], []⟩ (.scalar (.str "k")) "A"
        [("a", .int 1), ("z", .int 2)] =
      .ok ⟨[("A", ["a"])], ["i"], some [],
           [("A", [(.scalar (.str "k"), [some (.int 1)])])]⟩ := by rfl

/-- C4 witness: an undeclared group is rejected with a KeyError after the key
checks pass. -/
theorem C4_put_validation_witness :
    Table.check_key ["i", "j"] (.tup [.int 1, .int 2]) =
      .ok (.tup [.int 1, .int 2]) ∧
    dictGet ([("A", ["a"])] : List (String × List String)) "B" = none ∧
    Table.put ⟨[("A", ["a"])], ["i", "j"], some [], []⟩ (.tup [.int 1, .int 2])
        "B" [] = .error (.keyError "B") :=
  ⟨by rfl, by rfl,
    (C4_put_validation ⟨[("A", ["a"])], ["i", "j"], some [], []⟩ "B" []).2.2.1
      (.tup [.int 1, .int 2]) (.tup [.int 1, .int 2]) (by rfl) (by rfl)⟩

/-- C10: with a single index column a bare scalar key and the corresponding
length-1 tuple key produce identical put results (the tuple is normalized to
its element, so both address the same row); and a key containing any element
that is not `int` or `str` is always rejected -- with the shape checks
passing, specifically with a TypeError. -/
theorem C10_key_normalization (t : Table) (g : String)
    (record : List (String × PyVal)) :
    (∀ v, t.index_names.length = 1 →
       Table.put t (.scalar v) g record = Table.put t (.tup [v]) g record) ∧
    (∀ key, keyHasBadElem key = true → (Table.put t key g record).isOk = false) ∧
    (∀ vs, vs.length = t.index_names.length → vs.all isIntOrStr = false →
       Table.put t (.tup vs) g record =
         .error (.typeError "Invalid key; expected only str and int")) ∧
    (∀ v, t.index_names.length = 1 → isIntOrStr v = false →
       Table.put t (.scalar v) g record =
         .error (.typeError "Invalid key; expected only str and int")) := by
  refine ⟨?_, ?_, ?_, ?_⟩
  · intro v h
    have hck : Table.check_key t.index_names (.scalar v) =
        Table.check_key t.index_names (.tup [v]) := by
      cases hi : isIntOrStr v <;> simp [Table.check_key, h, hi]
    unfold Table.put
    rw [hck]
  · intro key hbad
    cases key with
    | scalar v =>
      have hv : isIntOrStr v = false := by simpa [keyHasBadElem] using hbad
      by_cases hl : t.index_names.length = 1
      · simp [Table.put, Table.check_key, hl, hv, Except.isOk, Except.toBool]
      · simp [Table.put, Table.check_key, hl, Except.isOk, Except.toBool]
    | tup vs =>
      have hv : vs.all isIntOrStr = false := by
        simp only [keyHasBadElem, List.any_eq_true, Bool.not_eq_true'] at hbad
        obtain ⟨x, hx, hxf⟩ := hbad
        apply List.all_eq_false.mpr
        exact ⟨x, hx, by simp [hxf]⟩
      by_cases hl : vs.length = t.index_names.length
      · simp [Table.put, Table.check_key, hl, hv, Except.isOk, Except.toBool]
      · simp [Table.put, Table.check_key, hl, Except.isOk, Except.toBool]
  · intro vs hlen hall
    simp [Table.put, Table.check_key, hlen, hall]
  · intro v hl hv
    simp [Table.put, Table.check_key, hl, hv]

/-- C10 witness: scalar/1-tuple puts coincide on a concrete table and a
float-like key element is rejected. -/
theorem C10_key_normalization_witness :
    Table.put ⟨[("A", ["a"])], ["i"], some [], []⟩ (.scalar (.int 7)) "A"
        [("a", .int 1)] =
      Table.put ⟨[("A", ["a"])], ["i"], some [], []⟩ (.tup [.int 7]) "A"
        [("a", .int 1)] ∧
    (Table.put ⟨[("A", ["a"])], ["i"], some [], []⟩ (.scalar (.obj "float"))
        "A" []).isOk = false :=
  ⟨(C10_key_normalization ⟨[("A", ["a"])], ["i"], some [], []⟩ "A"
      [("a", .int 1)]).1 (.int 7) rfl,
   (C10_key_normalization ⟨[("A", ["a"])], ["i"], some [], []⟩ "A" []).2.1
      (.scalar (.obj "float")) (by rfl)⟩

/-- C9: code-bug evaluation of `Table.to_pandas`.  The table state reached by
two valid puts (keys 2 then 1) under the default `constants = None` raises an
AttributeError at finalization (`self.constants.keys()` on `None`), and with
any non-empty constants dict it raises a KeyError (`df.loc[col]` is a row
lookup on the integer range index) -- instead of returning the sorted two-row
frame the claim describes. -/
theorem C9_to_pandas_crash :
    Table.put ⟨[("A", ["a"])], ["i"], none, []⟩ (.scalar (.int 2)) "A"
        [("a", .int 10)] =
      .ok ⟨[("A", ["a"])], ["i"], none,
           [("A", [(.scalar (.int 2), [some (.int 10)])])]⟩ ∧
    Table.put ⟨[("A", ["a"])], ["i"], none,
        [("A", [(.scalar (.int 2), [some (.int 10)])])]⟩
        (.scalar (.int 1)) "A" [("a", .int 20)] =
      .ok ⟨[("A", ["a"])], ["i"], none,
           [("A", [(.scalar (.int 2), [some (.int 10)]),
                   (.scalar (.int 1), [some (.int 20)])])]⟩ ∧
    Table.to_pandas ⟨[("A", ["a"])], ["i"], none,
        [("A", [(.scalar (.int 2), [some (.int 10)]),
                (.scalar (.int 1), [some (.int 20)])])]⟩ =
      .error (.attributeError "NoneType object has no attribute keys") ∧
    Table.to_pandas ⟨[("A", ["a"])], ["i"], some [("Y", .int 2022)],
        [("A", [(.scalar (.int 2), [some (.int 10)]),
                (.scalar (.int 1), [some (.int 20)])])]⟩ =
      .error (.keyError "constant column label is not in the row index") :=
  ⟨rfl, rfl, rfl, rfl⟩

theorem flush_ne (st : WriterState) (h : st.buffer ≠ []) :
    BufferedParquetWriter.flush st =
      ({ st with buffer := [], part := st.part + 1 },
       some ⟨BufferedParquetWriter.path st, st.buffer⟩) := by
  cases hb : st.buffer with
  | nil => exact absurd hb h
  | cons x t => simp [BufferedParquetWriter.flush, hb]

theorem run_coverage (bs : List Batch) : ∀ st : WriterState,
    (BufferedParquetWriter.run st bs).2.1.length = bs.length ∧
    (∀ b0 ∈ st.buffer,
       ∃ ev ∈ (BufferedParquetWriter.run st bs).2.2 ++
           ((BufferedParquetWriter.flush (BufferedParquetWriter.run st bs).1).2).toList,
         b0 ∈ ev.batches ∧ ev.path = BufferedParquetWriter.path st) ∧
    (∀ pr ∈ bs.zip (BufferedParquetWriter.run st bs).2.1,
       ∃ ev ∈ (BufferedParquetWriter.run st bs).2.2 ++
           ((BufferedParquetWriter.flush (BufferedParquetWriter.run st bs).1).2).toList,
         pr.1 ∈ ev.batches ∧ ev.path = pr.2) := by
  induction bs with
  | nil =>
    intro st
    refine ⟨rfl, ?_, ?_⟩
    · intro b0 hb0
      have hne : st.buffer ≠ [] := by
        intro hnil
        rw [hnil] at hb0
        cases hb0
      rw [BufferedParquetWriter.run, flush_ne st hne]
      exact ⟨⟨BufferedParquetWriter.path st, st.buffer⟩, by simp, hb0, rfl⟩
    · intro pr hpr
      cases hpr
  | cons b rest ih =>
    intro st
    by_cases hfl : bufferSize (st.buffer ++ [b]) > st.partition_size_bytes
    · -- the write flushes the whole buffer to the current partition path
      have hne : ({ st with buffer := st.buffer ++ [b] } : WriterState).buffer ≠ [] := by
        simp
      have hw : BufferedParquetWriter.write st b =
          ({ st with buffer := [], part := st.part + 1 },
           BufferedParquetWriter.path st,
           some ⟨BufferedParquetWriter.path st, st.buffer ++ [b]⟩) := by
        simp only [BufferedParquetWriter.write, if_pos hfl, flush_ne _ hne]
        rfl
      have hrun : BufferedParquetWriter.run st (b :: rest) =
          ((BufferedParquetWriter.run
              ({ st with buffer := [], part := st.part + 1 }) rest).1,
           BufferedParquetWriter.path st ::
             (BufferedParquetWriter.run
               ({ st with buffer := [], part := st.part + 1 }) rest).2.1,
           ⟨BufferedParquetWriter.path st, st.buffer ++ [b]⟩ ::
             (BufferedParquetWriter.run
               ({ st with buffer := [], part := st.part + 1 }) rest).2.2) := by
        simp [BufferedParquetWriter.run, hw]
      obtain ⟨ihl, _, ihz⟩ := ih ({ st with buffer := [], part := st.part + 1 })
      rw [hrun]
      refine ⟨by simpa using ihl, ?_, ?_⟩
      · intro b0 hb0
        exact ⟨⟨BufferedParquetWriter.path st, st.buffer ++ [b]⟩, by simp,
          by simp [hb0], rfl⟩
      · intro pr hpr
        rcases (List.mem_cons).mp hpr with hpr | hpr
        · rw [hpr]
          exact ⟨⟨BufferedParquetWriter.path st, st.buffer ++ [b]⟩, by simp,
            by simp, rfl⟩
        · obtain ⟨ev, hev, hin, hp⟩ := ihz pr hpr
          exact ⟨ev, by
            simp only [List.cons_append, List.mem_cons]
            exact Or.inr hev, hin, hp⟩
    · -- the batch stays in the buffer of the unchanged partition
      have hw : BufferedParquetWriter.write st b =
          ({ st with buffer := st.buffer ++ [b] },
           BufferedParquetWriter.path st, none) := by
        simp only [BufferedParquetWriter.write, if_neg hfl]
        rfl
      have hrun : BufferedParquetWriter.run st (b :: rest) =
          ((BufferedParquetWriter.run ({ st with buffer := st.buffer ++ [b] }) rest).1,
           BufferedParquetWriter.path st ::
             (BufferedParquetWriter.run
               ({ st with buffer := st.buffer ++ [b] }) rest).2.1,
           (BufferedParquetWriter.run
               ({ st with buffer := st.buffer ++ [b] }) rest).2.2) := by
        simp [BufferedParquetWriter.run, hw]
      obtain ⟨ihl, ihb, ihz⟩ := ih ({ st with buffer := st.buffer ++ [b] })
      rw [hrun]
      refine ⟨by simpa using ihl, ?_, ?_⟩
      · intro b0 hb0
        exact ihb b0 (by simp [hb0])
      · intro pr hpr
        rcases (List.mem_cons).mp hpr with hpr | hpr
        · rw [hpr]
          exact ihb b (by simp)
        · exact ihz pr hpr

/-- C8: `write` returns the current partition path for its batch and flushes
asynchronously exactly when the buffered size strictly exceeds the partition
size; a triggered flush targets exactly the returned path with the whole
buffer including the batch; across a write stream followed by the closing
flush every written batch lands in a flush event whose path is the one its
write returned; and the default partition size string "64 MiB" parses to
64*1024*1024 bytes. -/
theorem C8_write_partition (st : WriterState) (b : Batch) (bs : List Batch) :
    parse_size "64 MiB" = .ok 67108864 ∧
    (BufferedParquetWriter.write st b).2.1 = BufferedParquetWriter.path st ∧
    (BufferedParquetWriter.write st b).2.2.isSome =
      decide (bufferSize (st.buffer ++ [b]) > st.partition_size_bytes) ∧
    (∀ ev, (BufferedParquetWriter.write st b).2.2 = some ev →
       ev.path = BufferedParquetWriter.path st ∧ ev.batches = st.buffer ++ [b]) ∧
    (BufferedParquetWriter.run st bs).2.1.length = bs.length ∧
    (∀ pr ∈ bs.zip (BufferedParquetWriter.run st bs).2.1,
       ∃ ev ∈ (BufferedParquetWriter.run st bs).2.2 ++
           ((BufferedParquetWriter.flush (BufferedParquetWriter.run st bs).1).2).toList,
         pr.1 ∈ ev.batches ∧ ev.path = pr.2) := by
  have hparse : parse_size "64 MiB" = .ok 67108864 := by
    have h1 : parseSizeMatch "64 MiB".data = some ("64 ".data, 1048576) := rfl
    have h2 : pyFloat "64 ".data = some 64 := rfl
    simp only [parse_size, h1, h2]
    norm_num [pyTrunc]
    rfl
  obtain ⟨hlen, _, hz⟩ := run_coverage bs st
  by_cases hfl : bufferSize (st.buffer ++ [b]) > st.partition_size_bytes
  · have hne : ({ st with buffer := st.buffer ++ [b] } : WriterState).buffer ≠ [] := by
      simp
    have hw : BufferedParquetWriter.write st b =
        ({ st with buffer := [], part := st.part + 1 },
         BufferedParquetWriter.path st,
         some ⟨BufferedParquetWriter.path st, st.buffer ++ [b]⟩) := by
      simp only [BufferedParquetWriter.write, if_pos hfl, flush_ne _ hne]
      rfl
    rw [hw]
    refine ⟨hparse, rfl, by simp [hfl], ?_, hlen, hz⟩
    intro ev hev
    cases hev
    exact ⟨rfl, rfl⟩
  · have hw : BufferedParquetWriter.write st b =
        ({ st with buffer := st.buffer ++ [b] },
         BufferedParquetWriter.path st, none) := by
      simp only [BufferedParquetWriter.write, if_neg hfl]
      rfl
    rw [hw]
    refine ⟨hparse, rfl, by simp [hfl], ?_, hlen, hz⟩
    intro ev hev
    cases hev

/-- C8 witness: a two-batch stream overflowing a 10-byte partition: both
writes return partition 0000 and the flush event carries both batches to that
path. -/
theorem C8_write_partition_witness :
    ((⟨0, 6⟩ : Batch), "tab/0000.parquet") ∈
      [(⟨0, 6⟩ : Batch), ⟨1, 7⟩].zip
        (BufferedParquetWriter.run ⟨"tab", true, 10, [], 0⟩
          [⟨0, 6⟩, ⟨1, 7⟩]).2.1 ∧
    (∃ ev ∈ (BufferedParquetWriter.run ⟨"tab", true, 10, [], 0⟩
          [⟨0, 6⟩, ⟨1, 7⟩]).2.2 ++
        ((BufferedParquetWriter.flush
          (BufferedParquetWriter.run ⟨"tab", true, 10, [], 0⟩
            [⟨0, 6⟩, ⟨1, 7⟩]).1).2).toList,
       (⟨0, 6⟩ : Batch) ∈ ev.batches ∧ ev.path = "tab/0000.parquet") :=
  ⟨by decide,
   (C8_write_partition ⟨"tab", true, 10, [], 0⟩ ⟨0, 6⟩ [⟨0, 6⟩, ⟨1, 7⟩]).2.2.2.2.2
     (⟨0, 6⟩, "tab/0000.parquet") (by decide)⟩

/-- C5 (amended): when the overlap threshold is truthy (set and nonzero) and
the loaded record's schema overlap is below 1 and below the threshold,
`Handler.__call__` discards the record by returning `None` after logging a
warning -- a normal return, not a raised validation error -- and a load that
produced no record returns the same `None`, so the two cases are
indistinguishable to the caller. -/
theorem C5_low_overlap_returns_none
    (castV : Dtype → Option PyVal → Except PyErr (Option PyVal))
    (h : Handler) (r : List (String × PyVal)) (thr : Rat)
    (hrm : h.rename_map = none)
    (hth : h.overlap_threshold = some thr) (h0 : thr ≠ 0)
    (hr : r ≠ [])
    (hov1 : h.overlap r < 1) (hov2 : h.overlap r < thr) :
    Handler.call castV h (some r) = .ok none ∧
    Handler.call castV h none = .ok none := by
  constructor
  · have hren : Handler.apply_renaming h.rename_map (some r) = some r := by
      simp [Handler.apply_renaming, hrm]
    have hie : r.isEmpty = false := by
      cases r with
      | nil => exact absurd rfl hr
      | cons a l => rfl
    simp only [Handler.call, hren, hie]
    simp [hth, h0, hov1, hov2]
  · simp [Handler.call, Handler.apply_renaming, hrm]

/-- C5 counterexample: a handler with schema field {a} and overlap threshold
1 discards the loaded record {z: 1} (overlap 0) by returning `None`, which is
the very value returned when no record was loaded at all -- the claim's
named validation error is never raised. -/
theorem C5_counterexample :
    Handler.call (fun _ v => .ok v) ⟨⟨[("a", "object")]⟩, none, some 1⟩
      (some [("z", .int 1)]) = .ok none ∧
    Handler.call (fun _ v => .ok v) ⟨⟨[("a", "object")]⟩, none, some 1⟩
      none = .ok none := by
  constructor
  · have hov : Handler.overlap ⟨⟨[("a", "object")]⟩, none, some 1⟩
        [("z", .int 1)] = 0 := by
      norm_num [Handler.overlap, Schema.columns]
      decide
    norm_num [Handler.call, Handler.apply_renaming, hov]
  · rfl

/-- C5 witness: the amended theorem applied to the concrete handler above. -/
theorem C5_low_overlap_returns_none_witness :
    Handler.call (fun _ v => .ok v) ⟨⟨[("a", "object")]⟩, none, some 1⟩
      (some [("z", .int 1)]) = .ok none ∧
    Handler.call (fun _ v => .ok v) ⟨⟨[("a", "object")]⟩, none, some 1⟩
      none = .ok none :=
  C5_low_overlap_returns_none (fun _ v => .ok v)
    ⟨⟨[("a", "object")]⟩, none, some 1⟩ [("z", .int 1)] 1 rfl rfl
    (by norm_num) (by simp)
    (by norm_num [Handler.overlap, Schema.columns]; decide)
    (by norm_num [Handler.overlap, Schema.columns]; decide)

theorem dictGet_lutAppend_self {T : Type}
    (bs : List (String × List (String × Bool × T))) (s : String)
    (item : String × Bool × T) :
    dictGet (lutAppend bs s item) s = some ((dictGet bs s).getD [] ++ [item]) := by
  induction bs with
  | nil => simp [lutAppend, dictGet]
  | cons hd tl ih =>
    obtain ⟨s1, l⟩ := hd
    by_cases hs : s1 = s
    · simp [lutAppend, hs, dictGet]
    · simp [lutAppend, hs, dictGet, ih]

theorem dictGet_lutAppend_ne {T : Type}
    (bs : List (String × List (String × Bool × T))) (s s2 : String)
    (item : String × Bool × T) (h : ¬ s = s2) :
    dictGet (lutAppend bs s item) s2 = dictGet bs s2 := by
  induction bs with
  | nil => simp [lutAppend, dictGet, h]
  | cons hd tl ih =>
    obtain ⟨s1, l⟩ := hd
    by_cases hs : s1 = s
    · subst hs
      simp [lutAppend, dictGet, h]
    · simp [lutAppend, hs, dictGet, ih]

theorem build_bucket {T : Type} (items : List (String × T)) (s : String) :
    ∀ acc,
      (dictGet (items.foldl (fun bs it =>
          lutAppend bs (patternSuffix it.1) (it.1, it.1.data.contains '/', it.2)) acc)
        s).getD [] =
      (dictGet acc s).getD [] ++
        (items.filter (fun it => patternSuffix it.1 == s)).map
          (fun it => (it.1, it.1.data.contains '/', it.2)) := by
  induction items with
  | nil => intro acc; simp
  | cons it rest ih =>
    intro acc
    simp only [List.foldl_cons, List.filter_cons]
    by_cases hs : patternSuffix it.1 = s
    · rw [ih]
      subst hs
      rw [dictGet_lutAppend_self]
      simp
    · rw [ih]
      rw [dictGet_lutAppend_ne _ _ _ _ hs]
      simp [hs]

theorem filterMap_mk_filter {T : Type} (q : String × T → Bool)
    (l : List (String × T)) :
    l.filterMap (fun it => if q it then some (it.1, it.2) else none) =
      l.filter q := by
  induction l with
  | nil => rfl
  | cons a rest ih =>
    obtain ⟨x, y⟩ := a
    by_cases hq : q (x, y) <;> simp [List.filterMap_cons, hq, ih]

/-- C6 (amended): `lookup` yields exactly the (pattern, value) pairs whose
bucket suffix equals the queried path's suffix and whose glob pattern matches
(the full posix path for patterns with a separator, the base name otherwise),
in order.  The suffix bucketing does lose matches whose pattern suffix
differs from the path suffix -- e.g. wildcard-ending patterns, bucketed under
the empty suffix, are never consulted for suffixed paths, as the class
docstring warns. -/
theorem C6_lookup_bucketed {T : Type} (items : List (String × T)) (p : PathC)
    (hne : ∀ pv ∈ items, pv.1 ≠ "") :
    PatternLUT.lookup items p =
      items.filter (fun it =>
        (patternSuffix it.1 == pathSuffix p) &&
          fnmatch (if it.1.data.contains '/' then asPosix p else pathName p)
            it.1) := by
  have _ := hne
  unfold PatternLUT.lookup PatternLUT.build
  rw [build_bucket items (pathSuffix p) []]
  rw [show (dictGet ([] : List (String × List (String × Bool × T)))
      (pathSuffix p)).getD [] = [] from rfl]
  rw [List.nil_append, List.filterMap_map]
  rw [show ((fun e : String × Bool × T =>
        if fnmatch (if e.2.1 then asPosix p else pathName p) e.1 then
          some (e.1, e.2.2) else none) ∘
      (fun it : String × T => (it.1, it.1.data.contains '/', it.2))) =
    (fun it : String × T =>
        if fnmatch (if it.1.data.contains '/' then asPosix p else pathName p) it.1
        then some (it.1, it.2) else none) from rfl]
  rw [filterMap_mk_filter]
  rw [List.filter_filter]
  apply List.filter_congr
  intro it _
  exact Bool.and_comm _ _

/-- C6 counterexample: the wildcard pattern `*` glob-matches the file
`a.txt`, but `lookup` yields nothing for it because the pattern is bucketed
under the empty suffix while the path's suffix is `.txt` -- so bucketing does
lose matches relative to matching every pattern directly. -/
theorem C6_counterexample :
    PatternLUT.lookup [("*", 0)] ["a.txt"] = [] ∧
    directMatches [("*", 0)] ["a.txt"] = [("*", 0)] ∧
    fnmatch (pathName ["a.txt"]) "*" = true := by
  refine ⟨rfl, ?_, ?_⟩ <;> simp [directMatches, pathName, fnmatch, glMatch]

/-- C6 witness: the bucketed-lookup characterization at a concrete item list
and path. -/
theorem C6_lookup_bucketed_witness :
    (∀ pv ∈ [("*.txt", 0)], pv.1 ≠ "") ∧
    PatternLUT.lookup [("*.txt", 0)] ["a.txt"] =
      [("*.txt", 0)].filter (fun it =>
        (patternSuffix it.1 == pathSuffix ["a.txt"]) &&
          fnmatch (if it.1.data.contains '/' then asPosix ["a.txt"]
                   else pathName ["a.txt"]) it.1) :=
  ⟨by decide, C6_lookup_bucketed [("*.txt", 0)] ["a.txt"] (by decide)⟩

theorem dictGet_of_nodup {α : Type} (l : List (String × α)) (k : String) (v : α)
    (hnd : (l.map (fun kv => kv.1)).Nodup) (hmem : (k, v) ∈ l) :
    dictGet l k = some v := by
  induction l with
  | nil => cases hmem
  | cons a rest ih =>
    obtain ⟨k1, v1⟩ := a
    rw [List.map_cons, List.nodup_cons] at hnd
    rcases List.mem_cons.mp hmem with heq | hmem2
    · cases heq
      simp [dictGet]
    · have hk1 : ¬ k1 = k := by
        intro hkk
        subst hkk
        exact hnd.1 (List.mem_map.mpr ⟨(k1, v), hmem2, rfl⟩)
      simp only [dictGet, if_neg hk1]
      exact ih hnd.2 hmem2

theorem dictGet_map_val {α β : Type} (l : List (String × α)) (f : α → β)
    (k : String) :
    dictGet (l.map (fun kv => (kv.1, f kv.2))) k = (dictGet l k).map f := by
  induction l with
  | nil => rfl
  | cons a rest ih =>
    obtain ⟨k1, v1⟩ := a
    by_cases hk : k1 = k <;> simp [dictGet, hk, ih]

theorem dictGet_append {α : Type} (a b : List (String × α)) (k : String) :
    dictGet (a ++ b) k =
      (match dictGet a k with
       | some v => some v
       | none => dictGet b k) := by
  induction a with
  | nil => rfl
  | cons x rest ih =>
    obtain ⟨k1, v1⟩ := x
    by_cases hk : k1 = k <;> simp [dictGet, hk, ih]

theorem dictGet_map_const {α : Type} (l : List String) (x : α) (k : String) :
    dictGet (l.map (fun c => (c, x))) k = if k ∈ l then some x else none := by
  induction l with
  | nil => rfl
  | cons c rest ih =>
    by_cases hk : c = k
    · subst hk
      simp [dictGet]
    · have hk2 : ¬ k = c := fun h => hk h.symm
      simp [dictGet, hk, ih, hk2]

theorem mapM_ok_of_forall {α β : Type} (f : α → Except PyErr β) (g : α → β)
    (l : List α) (h : ∀ x ∈ l, f x = .ok (g x)) :
    l.mapM f = .ok (l.map g) := by
  induction l with
  | nil => rfl
  | cons a rest ih =>
    rw [List.mapM_cons, h a (by simp)]
    rw [ih (fun x hx => h x (by simp [hx]))]
    rfl

theorem mem_sortedStrings (l : List String) (c : String) :
    c ∈ sortedStrings l ↔ c ∈ l :=
  (List.perm_insertionSort _ l).mem_iff

/-- C7: `Schema.coerce` on a record dict returns exactly the schema columns
in declared order, each present field cast to its declared dtype, each schema
field missing from the record filled with null (the cast of `None`, which is
null for null-preserving casts), and record fields outside the schema
dropped; the spec-modelled `cast_to_schema` agrees for `with_null = true` and
instead omits the missing fields for `with_null = false`. -/
theorem C7_coerce_spec
    (castV : Dtype → Option PyVal → Except PyErr (Option PyVal))
    (inferD : Option PyVal → Dtype) (s : Schema)
    (record : List (String × PyVal)) (w : String → Option PyVal)
    (hs : (Schema.columns s).Nodup)
    (hw : ∀ c ∈ Schema.columns s,
      castV (s.dtypeOf c) (dictGet record c) = .ok (w c))
    (hnul : ∀ d, castV d none = .ok none)
    (hid : ∀ v, castV (inferD v) v = .ok v) :
    Schema.coerce castV inferD s record =
      .ok (s.fields.map (fun cd => (cd.1, w cd.1))) ∧
    (∀ c ∈ Schema.columns s, dictGet record c = none → w c = none) ∧
    cast_to_schema castV s record true =
      .ok (s.fields.map (fun cd => (cd.1, w cd.1))) ∧
    cast_to_schema castV s record false =
      .ok ((s.fields.filter (fun cd => (dictGet record cd.1).isSome)).map
        (fun cd => (cd.1, w cd.1))) := by
  have hdt : ∀ cd ∈ s.fields, s.dtypeOf cd.1 = cd.2 := by
    intro cd hcd
    unfold Schema.dtypeOf
    rw [dictGet_of_nodup s.fields cd.1 cd.2 hs (by simpa using hcd)]
    rfl
  have hcolmem : ∀ cd ∈ s.fields, cd.1 ∈ Schema.columns s := by
    intro cd hcd
    exact List.mem_map.mpr ⟨cd, hcd, rfl⟩
  refine ⟨?_, ?_, ?_, ?_⟩
  · -- Schema.coerce
    unfold Schema.coerce Schema.coerce_pandas
    by_cases hfast : Schema.matchesStrict inferD s
        (record.map (fun kv => (kv.1, some kv.2))) = true
    · rw [if_pos hfast]
      have heq : s.fields =
          (record.map (fun kv => (kv.1, some kv.2))).map
            (fun cv => (cv.1, inferD cv.2)) :=
        of_decide_eq_true (by simpa [Schema.matchesStrict] using hfast)
      have hkeys : Schema.columns s = record.map (fun kv => kv.1) := by
        unfold Schema.columns
        rw [heq]
        simp [List.map_map]
      have hndr : (record.map (fun kv => kv.1)).Nodup := hkeys ▸ hs
      have h2 : ∀ cv ∈ record.map (fun kv => (kv.1, some kv.2)),
          ((cv.1, w cv.1) : String × Option PyVal) = cv := by
        intro cv hcv
        obtain ⟨kv, hkvmem, rfl⟩ := List.mem_map.mp hcv
        have hget : dictGet record kv.1 = some kv.2 :=
          dictGet_of_nodup record kv.1 kv.2 hndr (by simpa using hkvmem)
        have hcmem : kv.1 ∈ Schema.columns s := by
          rw [hkeys]
          exact List.mem_map.mpr ⟨kv, hkvmem, rfl⟩
        have hmem2 : ((kv.1, inferD (some kv.2)) : String × Dtype) ∈ s.fields := by
          rw [heq]
          exact List.mem_map.mpr
            ⟨(kv.1, some kv.2), List.mem_map.mpr ⟨kv, hkvmem, rfl⟩, rfl⟩
        have hd : s.dtypeOf kv.1 = inferD (some kv.2) := hdt _ hmem2
        have hcast := hw kv.1 hcmem
        rw [hget, hd, hid (some kv.2)] at hcast
        have : some kv.2 = w kv.1 := by
          injection hcast
        simp [← this]
      have h3 : s.fields.map (fun cd => (cd.1, w cd.1)) =
          record.map (fun kv => (kv.1, some kv.2)) := by
        rw [heq, List.map_map]
        calc (record.map (fun kv => (kv.1, some kv.2))).map
              ((fun cd : String × Dtype => (cd.1, w cd.1)) ∘
                (fun cv : String × Option PyVal => (cv.1, inferD cv.2)))
            = (record.map (fun kv => (kv.1, some kv.2))).map
                (fun cv => (cv.1, w cv.1)) := rfl
          _ = (record.map (fun kv => (kv.1, some kv.2))).map id :=
              List.map_congr_left (fun cv hcv => h2 cv hcv)
          _ = record.map (fun kv => (kv.1, some kv.2)) :=
              List.map_id _
      rw [h3]
    · rw [if_neg hfast]
      have hcell : ∀ c ∈ Schema.columns s,
          (dictGet ((record.map (fun kv => (kv.1, some kv.2))) ++
            (sortedStrings ((Schema.columns s).filter
              (fun c => (dictGet (record.map (fun kv => (kv.1, some kv.2))) c).isNone))).map
              (fun c => (c, (none : Option PyVal)))) c).getD none
          = dictGet record c := by
        intro c hc
        have hdf := dictGet_map_val record some c
        rw [dictGet_append]
        cases hg : dictGet record c with
        | some v =>
          rw [hdf, hg]
          rfl
        | none =>
          rw [hdf, hg]
          rw [show (Option.map some (none : Option PyVal)) = none from rfl]
          rw [dictGet_map_const]
          rw [if_pos]
          · rfl
          · rw [mem_sortedStrings]
            apply List.mem_filter.mpr
            refine ⟨hc, ?_⟩
            rw [hdf, hg]
            rfl
      have hall : ∀ cv ∈ (Schema.columns s).map (fun c =>
          (c, (dictGet ((record.map (fun kv => (kv.1, some kv.2))) ++
            (sortedStrings ((Schema.columns s).filter
              (fun c => (dictGet (record.map (fun kv => (kv.1, some kv.2))) c).isNone))).map
              (fun c => (c, (none : Option PyVal)))) c).getD none)),
          (do
            let v ← castV (s.dtypeOf cv.1) cv.2
            pure (cv.1, v) : Except PyErr (String × Option PyVal)) =
            .ok (cv.1, w cv.1) := by
        intro cv hcv
        obtain ⟨c, hcmem, rfl⟩ := List.mem_map.mp hcv
        rw [hcell c hcmem]
        rw [hw c hcmem]
        rfl
      rw [mapM_ok_of_forall _ (fun cv => (cv.1, w cv.1)) _ hall]
      rw [List.map_map]
      unfold Schema.columns
      rw [List.map_map]
      rfl
  · -- missing fields are filled with null
    intro c hc hnone
    have hcast := hw c hc
    rw [hnone, hnul (s.dtypeOf c)] at hcast
    have : (none : Option PyVal) = w c := by injection hcast
    exact this.symm
  · -- cast_to_schema with_null = true
    unfold cast_to_schema
    rw [if_pos rfl]
    apply mapM_ok_of_forall
    intro cd hcd
    rw [show castV cd.2 (dictGet record cd.1) =
        castV (s.dtypeOf cd.1) (dictGet record cd.1) from by rw [hdt cd hcd]]
    rw [hw cd.1 (hcolmem cd hcd)]
    rfl
  · -- cast_to_schema with_null = false omits the missing fields
    unfold cast_to_schema
    rw [if_neg (by simp)]
    apply mapM_ok_of_forall
    intro cd hcd
    have hcd2 : cd ∈ s.fields := (List.mem_filter.mp hcd).1
    rw [show castV cd.2 (dictGet record cd.1) =
        castV (s.dtypeOf cd.1) (dictGet record cd.1) from by rw [hdt cd hcd2]]
    rw [hw cd.1 (hcolmem cd hcd2)]
    rfl

/-- C7 witness: coercing the record {b: 5, z: 7} to the schema {a, b} fills a
with null, keeps the cast b, drops z; with_null=false omits a. -/
theorem C7_coerce_spec_witness :
    (Schema.columns ⟨[("a", "object"), ("b", "object")]⟩).Nodup ∧
    Schema.coerce (fun _ v => .ok v) (fun _ => "inferred")
        ⟨[("a", "object"), ("b", "object")]⟩ [("b", .int 5), ("z", .int 7)] =
      .ok [("a", none), ("b", some (.int 5))] ∧
    cast_to_schema (fun _ v => .ok v) ⟨[("a", "object"), ("b", "object")]⟩
        [("b", .int 5), ("z", .int 7)] false =
      .ok [("b", some (.int 5))] := by
  have h := C7_coerce_spec (fun _ v => .ok v) (fun _ => "inferred")
    ⟨[("a", "object"), ("b", "object")]⟩ [("b", .int 5), ("z", .int 7)]
    (fun c => dictGet [("b", PyVal.int 5), ("z", PyVal.int 7)] c)
    (by decide) (fun c _ => rfl) (fun d => rfl) (fun v => rfl)
  exact ⟨by decide, h.1, h.2.2.2⟩

end B2T






